import Mathlib

/-!
 # Verification of the ast-project TypeScript/Flow type stripper

Shallow embedding of `src/c/src/analyzer/analyzer.c`:
* the token-based pipeline (`lex`, `parse`, `strip_types`), and
* the character-level single-pass stripper (`strip_types` of the second
  translation unit, embedded here as `strip_types2` with `process_code_token`).

Loops of the C code are embedded as structurally recursive functions on an
explicit fuel parameter; every top-level entry point supplies fuel that is
proved (or, for the character-level stripper, checked on the concrete inputs
evaluated here) to be sufficient.  Sources are byte buffers, embedded as
`List Char`; indices are `Nat` offsets, exactly mirroring the C pointer
arithmetic relative to `source`.
-/

set_option maxRecDepth 20000
set_option maxHeartbeats 4000000

namespace Analyzer

/-- NUL, the byte the C scanner observes when it peeks past the end of the
buffer (the callers NUL-terminate the buffer at index `size`). -/
def nul : Char := Char.ofNat 0

/-- the double-quote character -/
def dquote : Char := Char.ofNat 34

/-- the single-quote character -/
def squote : Char := Char.ofNat 39

/-- the backtick character -/
def btick : Char := Char.ofNat 96

/-- C `isspace` in the default locale: space, tab, newline, vertical tab,
form feed, carriage return. -/
def csIsspace (c : Char) : Bool :=
  c = ' ' || c = '\t' || c = '\n' || c = Char.ofNat 11 || c = Char.ofNat 12 || c = '\r'

/-- C `isalnum` in the default locale (ASCII letters and digits). -/
def csIsalnum (c : Char) : Bool := c.isAlphanum

/-- C `isalpha` in the default locale (ASCII letters). -/
def csIsalpha (c : Char) : Bool := c.isAlpha

/-- the byte at offset `i`, the C expression `*(source + i)` -/
def chAt (s : List Char) (i : Nat) : Char := s.getD i nul

/-- the byte after offset `i`, the C expression
`(ptr + 1 < end) ? *(ptr + 1) : 0` -/
def nxAt (s : List Char) (i : Nat) : Char := if i + 1 < s.length then chAt s (i + 1) else nul

/-- the C escape check `ptr == source || *(ptr - 1) != '\\'` -/
def noBackslashBefore (s : List Char) (i : Nat) : Bool :=
  decide (i = 0) || !(chAt s (i - 1) = '\\')

/-- string-literal delimiters recognised by both lexers -/
def isStrDelim (c : Char) : Bool := c = dquote || c = squote || c = btick

/-- Token kinds, the `TokenType` enum of `analyzer.h`. -/
inductive TokenType where
  | tkCode | tkString | tkBlockComment | tkLineComment
  | tkInterface | tkType | tkImplements | tkAs | tkPrivate
  | tkColon | tkOptional | tkLt | tkGt | tkEq | tkEof
  deriving DecidableEq, Repr

/-- A token: kind, start offset into the source, length, line number
(the C `Token` struct, with the `start` pointer as an offset). -/
structure Token where
  kind : TokenType
  start : Nat
  length : Nat
  line : Nat
  deriving DecidableEq, Repr

/-- default token used for out-of-range reads (never reached on the paths
mirroring the C array accesses) -/
def dfltTok : Token := ⟨TokenType.tkEof, 0, 0, 0⟩

def mkTok (k : TokenType) (st len ln : Nat) : Token := ⟨k, st, len, ln⟩

/-- `strncmp(source + i, kw, kw.length) == 0` against a NUL-terminated
buffer: the keyword must occur in full inside `s` starting at `i`. -/
def kwAt (s : List Char) (i : Nat) (kw : List Char) : Bool :=
  decide ((s.drop i).take kw.length = kw)

def kwInterfaceL : List Char := "interface".toList
def kwTypeSpL : List Char := "type ".toList
def kwTypeL : List Char := "type".toList
def kwImplementsSpL : List Char := "implements ".toList
def kwImplementsL : List Char := "implements".toList
def kwAsSpL : List Char := "as ".toList
def kwAsL : List Char := "as".toList
def kwPrivateL : List Char := "private".toList

/-- the C boundary check
`ptr + n >= end || (!isalnum(*(ptr + n)) && *(ptr + n) != '_')` -/
def identBoundary (s : List Char) (j : Nat) : Bool :=
  decide (s.length ≤ j) || !(csIsalnum (chAt s j) || chAt s j = '_')

/-- the backward scan `check = ptr - 1; while (check >= source &&
isspace(*check)) check--;` — scanning down from offset `i - 1`;
`none` when the scan runs off the front of the buffer. -/
def lastNonWs (s : List Char) : Nat → Option Char
  | 0 => none
  | j + 1 => if csIsspace (chAt s j) then lastNonWs s j else some (chAt s j)

/-- the colon classification of the lexer: the nearest preceding
non-whitespace byte is alphanumeric, `_`, `)` or `]`. -/
def colonIsAnnot (s : List Char) (i : Nat) : Bool :=
  match lastNonWs s i with
  | none => false
  | some c => csIsalnum c || c = '_' || c = ')' || c = ']'

/-- Lexer states (`LexerState` in `lex`, `ParserState` in the character-level
stripper — the same four states). -/
inductive LexState where
  | stCode | stString | stBlock | stLine
  deriving DecidableEq, Repr

/-- The lexer loop of `lex`, one fuel unit per iteration of the C `while`
loop.  Arguments after the fuel: current offset, state, string delimiter,
token start, line counter. -/
def lexAuxF (s : List Char) : Nat → Nat → LexState → Char → Nat → Nat → Option (List Token)
  | 0, _, _, _, _, _ => none
  | fuel + 1, i, st, dl, tst, ln =>
    if i < s.length then
      match st with
      | LexState.stCode =>
        if isStrDelim (chAt s i) && noBackslashBefore s i then
          lexAuxF s fuel (i + 1) LexState.stString (chAt s i) i ln
        else if chAt s i = '/' && nxAt s i = '*' then
          lexAuxF s fuel (i + 2) LexState.stBlock dl i ln
        else if chAt s i = '/' && nxAt s i = '/' then
          lexAuxF s fuel (i + 2) LexState.stLine dl i ln
        else if kwAt s i kwInterfaceL && identBoundary s (i + 9) then
          (lexAuxF s fuel (i + 9) LexState.stCode dl tst ln).map (mkTok TokenType.tkInterface i 9 ln :: ·)
        else if kwAt s i kwTypeSpL then
          (lexAuxF s fuel (i + 4) LexState.stCode dl tst ln).map (mkTok TokenType.tkType i 4 ln :: ·)
        else if kwAt s i kwImplementsSpL then
          (lexAuxF s fuel (i + 10) LexState.stCode dl tst ln).map (mkTok TokenType.tkImplements i 10 ln :: ·)
        else if decide (i + 3 < s.length) && decide (0 < i) && (chAt s (i - 1) = ' ') && kwAt s i kwAsSpL then
          (lexAuxF s fuel (i + 2) LexState.stCode dl tst ln).map (mkTok TokenType.tkAs i 2 ln :: ·)
        else if kwAt s i kwPrivateL && identBoundary s (i + 7) then
          (lexAuxF s fuel (i + 7) LexState.stCode dl tst ln).map (mkTok TokenType.tkPrivate i 7 ln :: ·)
        else if chAt s i = '?' && nxAt s i = ':' then
          (lexAuxF s fuel (i + 2) LexState.stCode dl tst ln).map (mkTok TokenType.tkOptional i 2 ln :: ·)
        else if chAt s i = ':' && colonIsAnnot s i then
          (lexAuxF s fuel (i + 1) LexState.stCode dl tst ln).map (mkTok TokenType.tkColon i 1 ln :: ·)
        else if chAt s i = '<' then
          (lexAuxF s fuel (i + 1) LexState.stCode dl tst ln).map (mkTok TokenType.tkLt i 1 ln :: ·)
        else if chAt s i = '>' then
          (lexAuxF s fuel (i + 1) LexState.stCode dl tst ln).map (mkTok TokenType.tkGt i 1 ln :: ·)
        else if chAt s i = '=' then
          (lexAuxF s fuel (i + 1) LexState.stCode dl tst ln).map (mkTok TokenType.tkEq i 1 ln :: ·)
        else
          (lexAuxF s fuel (i + 1) LexState.stCode dl i
              (if chAt s i = '\n' then ln + 1 else ln)).map (mkTok TokenType.tkCode i 1 ln :: ·)
      | LexState.stString =>
        if chAt s i = dl && noBackslashBefore s i then
          (lexAuxF s fuel (i + 1) LexState.stCode dl tst ln).map
            (mkTok TokenType.tkString tst (i + 1 - tst) ln :: ·)
        else
          lexAuxF s fuel (i + 1) LexState.stString dl tst ln
      | LexState.stBlock =>
        if chAt s i = '*' && nxAt s i = '/' then
          (lexAuxF s fuel (i + 2) LexState.stCode dl tst ln).map
            (mkTok TokenType.tkBlockComment tst (i + 2 - tst) ln :: ·)
        else
          lexAuxF s fuel (i + 1) LexState.stBlock dl tst (if chAt s i = '\n' then ln + 1 else ln)
      | LexState.stLine =>
        if chAt s i = '\n' then
          (lexAuxF s fuel (i + 1) LexState.stCode dl tst (ln + 2)).map
            (mkTok TokenType.tkLineComment tst (i - tst) ln :: ·)
        else
          lexAuxF s fuel (i + 1) LexState.stLine dl tst ln
    else
      some [mkTok TokenType.tkEof i 0 ln]

/-- `lex`: `NULL` on a null/empty buffer, otherwise the token array
(always ending in the `TOKEN_EOF` token). -/
def lex (s : List Char) : Option (List Token) :=
  if s.length = 0 then none
  else lexAuxF s (s.length + 1) 0 LexState.stCode nul 0 1

/-- the bytes a token spans in the source -/
def span (s : List Char) (t : Token) : List Char := (s.drop t.start).take t.length

/-- the byte a token starts at, the C expression `*token.start` -/
def firstChar (s : List Char) (t : Token) : Char := chAt s t.start

/-- the backward scan of the `TOKEN_LT` case of `parse`:
`while (prev > 0 && tokens[prev].type == TOKEN_CODE) { ... prev--; }`,
called on `prev = i - 1`; note the loop never inspects token 0. -/
def ltLookback (ts : List Token) (s : List Char) : Nat → Bool
  | 0 => false
  | p + 1 =>
    if (ts.getD (p + 1) dfltTok).kind = TokenType.tkCode then
      if !(csIsspace (firstChar s (ts.getD (p + 1) dfltTok))) &&
         !(firstChar s (ts.getD (p + 1) dfltTok) = '\n') then
        csIsalnum (firstChar s (ts.getD (p + 1) dfltTok)) ||
          firstChar s (ts.getD (p + 1) dfltTok) = '_' ||
          firstChar s (ts.getD (p + 1) dfltTok) = ')'
      else ltLookback ts s p
    else false

/-- the guarded entry `if (i > 0) { size_t prev = i - 1; while ... }` -/
def ltCandidate (ts : List Token) (s : List Char) (i : Nat) : Bool :=
  match i with
  | 0 => false
  | j + 1 => ltLookback ts s j

/-- forward scan for the matching `TOKEN_GT`; `some (some m)` when the match
is found at index `m`, `some none` when the scan runs off the end of the
token array, `none` on fuel exhaustion. -/
def findMatchGtF (ts : List Token) : Nat → Nat → Nat → Option (Option Nat)
  | 0, _, _ => none
  | fuel + 1, la, depth =>
    if la < ts.length && decide (0 < depth) then
      if (ts.getD la dfltTok).kind = TokenType.tkLt then
        findMatchGtF ts fuel (la + 1) (depth + 1)
      else if (ts.getD la dfltTok).kind = TokenType.tkGt then
        if depth = 1 then some (some la)
        else findMatchGtF ts fuel (la + 1) (depth - 1)
      else findMatchGtF ts fuel (la + 1) depth
    else some none

/-- the whitespace skip after the matched `>`:
`while (lookahead < count && type == TOKEN_CODE) { if nonspace break; la++; }` -/
def skipWsF (ts : List Token) (s : List Char) : Nat → Nat → Option Nat
  | 0, _ => none
  | fuel + 1, la =>
    if la < ts.length && (ts.getD la dfltTok).kind = TokenType.tkCode then
      if !(csIsspace (firstChar s (ts.getD la dfltTok))) &&
         !(firstChar s (ts.getD la dfltTok) = '\n') then some la
      else skipWsF ts s fuel (la + 1)
    else some la

/-- the classification by the token following the matched `>`: a Code token
keeps the generic reading only for `(` and `{`; an Equals token keeps it in
both of its branches; every other kind (String, Colon, Optional, comments,
EndOfInput) leaves the candidate flag set, so the generic reading is kept. -/
def followGeneric (ts : List Token) (s : List Char) (la : Nat) : Bool :=
  if la < ts.length then
    if (ts.getD la dfltTok).kind = TokenType.tkCode then
      firstChar s (ts.getD la dfltTok) = '(' || firstChar s (ts.getD la dfltTok) = '{'
    else if (ts.getD la dfltTok).kind = TokenType.tkEq then true
    else true
  else true

/-- the complete generic-vs-comparison decision of the `TOKEN_LT` case -/
def ltLooksGenericF (ts : List Token) (s : List Char) (fuel i : Nat) : Option Bool :=
  if ltCandidate ts s i then
    match findMatchGtF ts fuel (i + 1) 1 with
    | none => none
    | some none => some false
    | some (some m) =>
      match skipWsF ts s fuel (m + 1) with
      | none => none
      | some la => some (followGeneric ts s la)
  else some false

/-- the elision loop of the `TOKEN_LT` case (`// Skip the generic: < ... >`);
returns the value of `i` after the trailing `i--`, so the main loop resumes
at the successor of the result. -/
def skipGenericF (ts : List Token) : Nat → Nat → Nat → Option Nat
  | 0, _, _ => none
  | fuel + 1, i, depth =>
    if i < ts.length && decide (0 < depth) then
      if (ts.getD i dfltTok).kind = TokenType.tkLt then
        skipGenericF ts fuel (i + 1) (depth + 1)
      else if (ts.getD i dfltTok).kind = TokenType.tkGt then
        if depth = 1 then some i
        else skipGenericF ts fuel (i + 1) (depth - 1)
      else skipGenericF ts fuel (i + 1) depth
    else some (i - 1)

/-- the inner brace-matching loop of the `TOKEN_INTERFACE` case -/
def interfaceBracesF (ts : List Token) (s : List Char) : Nat → Nat → Nat → Option Nat
  | 0, _, _ => none
  | fuel + 1, i, bc =>
    if i < ts.length && decide (0 < bc) then
      interfaceBracesF ts s fuel (i + 1)
        (if (ts.getD i dfltTok).kind = TokenType.tkCode then
          (if firstChar s (ts.getD i dfltTok) = '{' then bc + 1
           else if firstChar s (ts.getD i dfltTok) = '}' then bc - 1
           else bc)
         else bc)
    else some i

/-- the outer skip loop of the `TOKEN_INTERFACE` case; returns the value of
`i` after the trailing `i--`. -/
def skipInterfaceF (ts : List Token) (s : List Char) : Nat → Nat → Option Nat
  | 0, _ => none
  | fuel + 1, i =>
    if i < ts.length && !((ts.getD i dfltTok).kind = TokenType.tkEof) then
      if (ts.getD i dfltTok).kind = TokenType.tkCode &&
         firstChar s (ts.getD i dfltTok) = '{' then
        (interfaceBracesF ts s fuel (i + 1) 1).map (fun j => j - 1)
      else if (ts.getD i dfltTok).kind = TokenType.tkCode &&
              firstChar s (ts.getD i dfltTok) = '\n' then some (i - 1)
      else skipInterfaceF ts s fuel (i + 1)
    else some (i - 1)

/-- the skip loop of the `TOKEN_TYPE` case (`;` consumed, newline not);
returns the value of `i` after the trailing `i--`. -/
def skipTypeF (ts : List Token) (s : List Char) : Nat → Nat → Option Nat
  | 0, _ => none
  | fuel + 1, i =>
    if i < ts.length && !((ts.getD i dfltTok).kind = TokenType.tkEof) then
      if (ts.getD i dfltTok).kind = TokenType.tkCode &&
         firstChar s (ts.getD i dfltTok) = ';' then some i
      else if (ts.getD i dfltTok).kind = TokenType.tkCode &&
              firstChar s (ts.getD i dfltTok) = '\n' then some (i - 1)
      else skipTypeF ts s fuel (i + 1)
    else some (i - 1)

/-- the depth update of the `TOKEN_COLON` skip:
`if (LT) depth++; else if (GT) { if (depth > 0) depth--; }` -/
def colonDepthStep (t : Token) (d : Nat) : Nat :=
  if t.kind = TokenType.tkLt then d + 1
  else if t.kind = TokenType.tkGt then d - 1
  else d

/-- the zero-depth stop characters of the `TOKEN_COLON` skip -/
def colonStop (s : List Char) (t : Token) : Bool :=
  t.kind = TokenType.tkCode &&
    (firstChar s t = ',' || firstChar s t = ';' || firstChar s t = '{' ||
     firstChar s t = '}' || firstChar s t = '\n' || firstChar s t = ')')

/-- the skip loop of the `TOKEN_COLON` case; on a stop the C code does
`i--; break`, so the result is the predecessor of the stop index, and the
main loop resumes at the stop token itself. -/
def skipColonF (ts : List Token) (s : List Char) : Nat → Nat → Nat → Option Nat
  | 0, _, _ => none
  | fuel + 1, i, d =>
    if i < ts.length then
      if colonDepthStep (ts.getD i dfltTok) d = 0 && colonStop s (ts.getD i dfltTok) then
        some (i - 1)
      else if colonDepthStep (ts.getD i dfltTok) d = 0 &&
              (ts.getD i dfltTok).kind = TokenType.tkEq then
        some (i - 1)
      else skipColonF ts s fuel (i + 1) (colonDepthStep (ts.getD i dfltTok) d)
    else some i

/-- the skip loop of the `TOKEN_IMPLEMENTS` case: up to (not including) the
next `{` Code token. -/
def skipImplementsF (ts : List Token) (s : List Char) : Nat → Nat → Option Nat
  | 0, _ => none
  | fuel + 1, i =>
    if i < ts.length && !((ts.getD i dfltTok).kind = TokenType.tkEof) then
      if (ts.getD i dfltTok).kind = TokenType.tkCode &&
         firstChar s (ts.getD i dfltTok) = '{' then some (i - 1)
      else skipImplementsF ts s fuel (i + 1)
    else some i

/-- the character class of the `TOKEN_AS` skip -/
def asIdentish (c : Char) : Bool := csIsalnum c || c = '_' || c = '.' || c = '<' || c = '>'

/-- the skip loop of the `TOKEN_AS` case; only Code tokens are inspected,
every other kind is skipped over. -/
def skipAsF (ts : List Token) (s : List Char) : Nat → Nat → Option Nat
  | 0, _ => none
  | fuel + 1, i =>
    if i < ts.length then
      if (ts.getD i dfltTok).kind = TokenType.tkCode &&
         !(asIdentish (firstChar s (ts.getD i dfltTok))) then some (i - 1)
      else skipAsF ts s fuel (i + 1)
    else some i

/-- The main loop of `parse`, one fuel unit per iteration of the C `for`
loop; each skip helper receives fuel `ts.length + 2`, which the totality
lemmas below show is always sufficient. -/
def parseAuxF (ts : List Token) (s : List Char) : Nat → Nat → Option (List Char)
  | 0, _ => none
  | fuel + 1, i =>
    if i < ts.length then
      match (ts.getD i dfltTok).kind with
      | TokenType.tkString =>
        (parseAuxF ts s fuel (i + 1)).map (span s (ts.getD i dfltTok) ++ ·)
      | TokenType.tkBlockComment =>
        (parseAuxF ts s fuel (i + 1)).map (span s (ts.getD i dfltTok) ++ ·)
      | TokenType.tkLineComment =>
        (parseAuxF ts s fuel (i + 1)).map (span s (ts.getD i dfltTok) ++ ·)
      | TokenType.tkCode =>
        (parseAuxF ts s fuel (i + 1)).map (span s (ts.getD i dfltTok) ++ ·)
      | TokenType.tkGt =>
        (parseAuxF ts s fuel (i + 1)).map (span s (ts.getD i dfltTok) ++ ·)
      | TokenType.tkEq =>
        (parseAuxF ts s fuel (i + 1)).map (span s (ts.getD i dfltTok) ++ ·)
      | TokenType.tkLt =>
        match ltLooksGenericF ts s (ts.length + 2) i with
        | none => none
        | some true =>
          match skipGenericF ts (ts.length + 2) (i + 1) 1 with
          | none => none
          | some j => parseAuxF ts s fuel (j + 1)
        | some false =>
          (parseAuxF ts s fuel (i + 1)).map (firstChar s (ts.getD i dfltTok) :: ·)
      | TokenType.tkInterface =>
        match skipInterfaceF ts s (ts.length + 2) (i + 1) with
        | none => none
        | some j => parseAuxF ts s fuel (j + 1)
      | TokenType.tkType =>
        match skipTypeF ts s (ts.length + 2) (i + 1) with
        | none => none
        | some j => parseAuxF ts s fuel (j + 1)
      | TokenType.tkColon =>
        match skipColonF ts s (ts.length + 2) (i + 1) 0 with
        | none => none
        | some j => parseAuxF ts s fuel (j + 1)
      | TokenType.tkImplements =>
        match skipImplementsF ts s (ts.length + 2) (i + 1) with
        | none => none
        | some j => (parseAuxF ts s fuel (j + 1)).map (fun r => ' ' :: ' ' :: r)
      | TokenType.tkAs =>
        match skipAsF ts s (ts.length + 2) (i + 1) with
        | none => none
        | some j => (parseAuxF ts s fuel (j + 1)).map (fun r => ' ' :: r)
      | TokenType.tkOptional => (parseAuxF ts s fuel (i + 1)).map (fun r => ':' :: r)
      | TokenType.tkPrivate => parseAuxF ts s fuel (i + 1)
      | TokenType.tkEof => parseAuxF ts s fuel (i + 1)
    else some []

/-- `parse`: the stripper of the token pipeline. -/
def parse (ts : List Token) (s : List Char) : Option (List Char) :=
  parseAuxF ts s (ts.length + 1) 0

/-- `strip_types` of the token pipeline: `lex` then `parse`. -/
def strip_types (s : List Char) : Option (List Char) :=
  (lex s).bind (fun ts => parse ts s)

/-!
 ## The character-level single-pass stripper

The second translation unit of the repository defines its own `strip_types`
(embedded here as `strip_types2`) working directly on bytes through
`process_code_token`.  All of its scans are embedded with the same fuel
discipline; `none` marks fuel exhaustion and never occurs at the fuel the
entry point supplies on the inputs evaluated below.
-/

/-- `while (p < end && isspace(*p)) p++;` -/
def wsScanF (s : List Char) : Nat → Nat → Option Nat
  | 0, _ => none
  | fuel + 1, p =>
    if p < s.length && csIsspace (chAt s p) then wsScanF s fuel (p + 1) else some p

/-- the brace scan of the `interface` rule of `process_code_token`; the brace
counter is a C `int` and may go negative, hence `Int`. -/
def ifaceScan2F (s : List Char) : Nat → Nat → Int → Bool → Option Nat
  | 0, _, _, _ => none
  | fuel + 1, p, bc, found =>
    if p < s.length then
      if chAt s p = '{' then ifaceScan2F s fuel (p + 1) (bc + 1) true
      else if chAt s p = '}' then
        if found && decide (bc - 1 = 0) then some (p + 1)
        else ifaceScan2F s fuel (p + 1) (bc - 1) found
      else if chAt s p = '\n' && !found then some (p + 1)
      else ifaceScan2F s fuel (p + 1) bc found
    else some p

/-- the scan of the `type` rule: to `;` (consumed) or newline (not consumed) -/
def typeScan2F (s : List Char) : Nat → Nat → Option Nat
  | 0, _ => none
  | fuel + 1, p =>
    if p < s.length && !(chAt s p = ';') && !(chAt s p = '\n') then typeScan2F s fuel (p + 1)
    else if p < s.length && chAt s p = ';' then some (p + 1)
    else some p

/-- the type-expression scan of the colon rule, with separate angle-bracket,
parenthesis and square-bracket counters; an unmatched `>`/`)`/`]` stops the
scan, and the delimiter characters stop it only when all three counters are
zero. -/
def colonScan2F (s : List Char) : Nat → Nat → Nat → Nat → Nat → Option Nat
  | 0, _, _, _, _ => none
  | fuel + 1, p, ang, par, br =>
    if p < s.length then
      if chAt s p = '<' then colonScan2F s fuel (p + 1) (ang + 1) par br
      else if chAt s p = '>' then
        if 0 < ang then colonScan2F s fuel (p + 1) (ang - 1) par br else some p
      else if chAt s p = '(' then colonScan2F s fuel (p + 1) ang (par + 1) br
      else if chAt s p = ')' then
        if 0 < par then colonScan2F s fuel (p + 1) ang (par - 1) br else some p
      else if chAt s p = '[' then colonScan2F s fuel (p + 1) ang par (br + 1)
      else if chAt s p = ']' then
        if 0 < br then colonScan2F s fuel (p + 1) ang par (br - 1) else some p
      else if (chAt s p = ',' || chAt s p = ';' || chAt s p = '{' || chAt s p = '}' ||
               chAt s p = '=' || chAt s p = '\n') && ang = 0 && par = 0 && br = 0 then
        some p
      else colonScan2F s fuel (p + 1) ang par br
    else some p

/-- the lookahead loop of the generics rule; returns the final lookahead
position together with the remaining depth (the rule requires depth zero). -/
def genMatch2F (s : List Char) : Nat → Nat → Nat → Option (Nat × Nat)
  | 0, _, _ => none
  | fuel + 1, la, depth =>
    if la < s.length && decide (0 < depth) then
      if chAt s la = '<' then genMatch2F s fuel (la + 1) (depth + 1)
      else if chAt s la = '>' then genMatch2F s fuel (la + 1) (depth - 1)
      else if chAt s la = ';' || chAt s la = '{' then some (la, depth)
      else genMatch2F s fuel (la + 1) depth
    else some (la, depth)

/-- the elision loop of the generics rule -/
def genSkip2F (s : List Char) : Nat → Nat → Nat → Option Nat
  | 0, _, _ => none
  | fuel + 1, p, depth =>
    if p < s.length && decide (0 < depth) then
      if chAt s p = '<' then genSkip2F s fuel (p + 1) (depth + 1)
      else if chAt s p = '>' then
        if depth = 1 then some (p + 1)
        else genSkip2F s fuel (p + 1) (depth - 1)
      else genSkip2F s fuel (p + 1) depth
    else some p

/-- the backward check of the generics rule (alphanumeric or `_` only) -/
def genBack2 (s : List Char) (i : Nat) : Bool :=
  match lastNonWs s i with
  | none => false
  | some c => csIsalnum c || c = '_'

/-- the `could_be_generic` computation of the generics rule -/
def genCould2 (s : List Char) (fuel i : Nat) : Option Bool :=
  match wsScanF s fuel (i + 1) with
  | none => none
  | some la =>
    if la < s.length && (csIsalpha (chAt s la) || chAt s la = '_') then
      match genMatch2F s fuel (la + 1) 1 with
      | none => none
      | some (laf, depth) =>
        if depth = 0 && decide (laf < s.length) then
          match wsScanF s fuel laf with
          | none => none
          | some la2 =>
            if la2 < s.length &&
               (chAt s la2 = '(' || chAt s la2 = '=' || chAt s la2 = '{' ||
                (decide (la2 + 1 < s.length) && chAt s la2 = '=' && chAt s (la2 + 1) = '>')) then
              some true
            else some false
        else some false
    else some false

/-- the nested angle-bracket scan inside the `as` rule -/
def asAng2F (s : List Char) : Nat → Nat → Nat → Option Nat
  | 0, _, _ => none
  | fuel + 1, p, depth =>
    if p < s.length && decide (0 < depth) then
      asAng2F s fuel (p + 1)
        (if chAt s p = '<' then depth + 1 else if chAt s p = '>' then depth - 1 else depth)
    else some p

/-- the identifier/angle-run scan of the `as` rule -/
def asScan2F (s : List Char) : Nat → Nat → Option Nat
  | 0, _ => none
  | fuel + 1, p =>
    if p < s.length && asIdentish (chAt s p) then
      if chAt s p = '<' then
        match asAng2F s fuel (p + 1) 1 with
        | none => none
        | some q => asScan2F s fuel q
      else asScan2F s fuel (p + 1)
    else some p

/-- `while (p < end && *p != '{') p++;` of the `implements` rule -/
def implScan2F (s : List Char) : Nat → Nat → Option Nat
  | 0, _ => none
  | fuel + 1, p =>
    if p < s.length && !(chAt s p = '{') then implScan2F s fuel (p + 1) else some p

/-- `process_code_token`: `some none` is the C return value 0 (no rule
fired, the caller emits the byte), `some (some (p, out))` is return value 1
with the new position `p` and the bytes `out` the rule appended, and `none`
is fuel exhaustion inside one of the scans. -/
def process_code_token (s : List Char) (fuel i : Nat) : Option (Option (Nat × List Char)) :=
  if kwAt s i kwInterfaceL && identBoundary s (i + 9) then
    match ifaceScan2F s fuel i 0 false with
    | none => none
    | some p => some (some (p, []))
  else if kwAt s i kwTypeL && decide (i + 4 < s.length) && chAt s (i + 4) = ' ' then
    match typeScan2F s fuel i with
    | none => none
    | some p => some (some (p, []))
  else if chAt s i = ':' && colonIsAnnot s i then
    match wsScanF s fuel (i + 1) with
    | none => none
    | some p1 =>
      match colonScan2F s fuel p1 0 0 0 with
      | none => none
      | some p => some (some (p, []))
  else if chAt s i = '<' && genBack2 s i then
    match genCould2 s fuel i with
    | none => none
    | some true =>
      match genSkip2F s fuel (i + 1) 1 with
      | none => none
      | some p => some (some (p, []))
    | some false => some none
  else if decide (i + 3 < s.length) && decide (0 < i) && (chAt s (i - 1) = ' ') &&
          kwAt s i kwAsL && chAt s (i + 2) = ' ' then
    match wsScanF s fuel (i + 4) with
    | none => none
    | some p1 =>
      match asScan2F s fuel p1 with
      | none => none
      | some p => some (some (p, [' ']))
  else if decide (i + 10 < s.length) && kwAt s i kwImplementsL && chAt s (i + 10) = ' ' then
    match implScan2F s fuel (i + 11) with
    | none => none
    | some p => some (some (p, [' ']))
  else if chAt s i = '?' && decide (i + 1 < s.length) && chAt s (i + 1) = ':' then
    some (some (i + 1, []))
  else if kwAt s i kwPrivateL && identBoundary s (i + 7) then
    match wsScanF s fuel (i + 7) with
    | none => none
    | some p => some (some (p, []))
  else
    some none

/-- The main loop of the character-level `strip_types`. -/
def strip2AuxF (s : List Char) : Nat → Nat → LexState → Char → Option (List Char)
  | 0, _, _, _ => none
  | fuel + 1, i, st, dl =>
    if i < s.length then
      match st with
      | LexState.stCode =>
        if isStrDelim (chAt s i) && noBackslashBefore s i then
          (strip2AuxF s fuel (i + 1) LexState.stString (chAt s i)).map (chAt s i :: ·)
        else if chAt s i = '/' && nxAt s i = '*' then
          (strip2AuxF s fuel (i + 2) LexState.stBlock dl).map (fun r => '/' :: '*' :: r)
        else if chAt s i = '/' && nxAt s i = '/' then
          (strip2AuxF s fuel (i + 2) LexState.stLine dl).map (fun r => '/' :: '/' :: r)
        else
          match process_code_token s (s.length + 2) i with
          | none => none
          | some none => (strip2AuxF s fuel (i + 1) LexState.stCode dl).map (chAt s i :: ·)
          | some (some (p, out)) => (strip2AuxF s fuel p LexState.stCode dl).map (out ++ ·)
      | LexState.stString =>
        if chAt s i = dl && noBackslashBefore s i then
          (strip2AuxF s fuel (i + 1) LexState.stCode dl).map (chAt s i :: ·)
        else (strip2AuxF s fuel (i + 1) LexState.stString dl).map (chAt s i :: ·)
      | LexState.stBlock =>
        if chAt s i = '*' && nxAt s i = '/' then
          (strip2AuxF s fuel (i + 2) LexState.stCode dl).map (fun r => '*' :: '/' :: r)
        else (strip2AuxF s fuel (i + 1) LexState.stBlock dl).map (chAt s i :: ·)
      | LexState.stLine =>
        if chAt s i = '\n' then
          (strip2AuxF s fuel (i + 1) LexState.stCode dl).map (chAt s i :: ·)
        else (strip2AuxF s fuel (i + 1) LexState.stLine dl).map (chAt s i :: ·)
    else some []

/-- the character-level `strip_types` of the second translation unit -/
def strip_types2 (s : List Char) : Option (List Char) :=
  if s.length = 0 then none
  else strip2AuxF s (s.length + 1) 0 LexState.stCode nul

/-!
 ## Specification-side definitions

`plainChar` describes bytes with no special lexical role for the token
pipeline: not a string delimiter, not the comment/keyword/annotation trigger
characters.  On buffers of such bytes the lexer provably produces one
verbatim-preserved token per byte (`plainTokensF` below) and the stripper is
provably the identity.  `specColonSkip` restates the `TOKEN_COLON` skip as a
structural walk over the token suffix, for comparison with the fuel-indexed
`skipColonF` taken from the source.
-/

/-- a byte with no special lexical role: not a quote, backtick, slash,
colon or `<`, and not one of the letters `t`, `a`, `i`, `p` (every keyword
the lexer recognises — `type`, `as`, `interface`, `implements`, `private` —
contains at least one of those letters, so none can match). -/
def plainChar (c : Char) : Bool :=
  !(c = dquote || c = squote || c = btick || c = '/' || c = ':' || c = '<' ||
    c = 't' || c = 'a' || c = 'i' || c = 'p')

/-- the kind the lexer assigns to a single plain byte -/
def plainKind (c : Char) : TokenType :=
  if c = '<' then TokenType.tkLt
  else if c = '>' then TokenType.tkGt
  else if c = '=' then TokenType.tkEq
  else TokenType.tkCode

/-- the line counter after scanning `k` plain bytes from offset `i` -/
def plainLine (s : List Char) : Nat → Nat → Nat → Nat
  | 0, _, ln => ln
  | k + 1, i, ln => plainLine s k (i + 1) (if chAt s i = '\n' then ln + 1 else ln)

/-- the token list the lexer produces for `n` plain bytes starting at
offset `i`: one single-byte token per byte, then the end-of-input token -/
def plainTokensF (s : List Char) : Nat → Nat → Nat → List Token
  | 0, i, ln => [mkTok TokenType.tkEof i 0 ln]
  | n + 1, i, ln =>
    mkTok (plainKind (chAt s i)) i 1 ln ::
      plainTokensF s n (i + 1) (if chAt s i = '\n' then ln + 1 else ln)

/-- the amended colon-skip rule, stated as a structural walk over the token
suffix: depth is raised by AngleOpen and lowered (never below zero) by
AngleClose; the walk stops, without consuming, at the first token whose
updated depth is zero and which is a `,`/`;`/`{`/`}`/`)`/newline Code token
or an Equals token; with no such token it runs to the end of the sequence. -/
def specColonSkip (s : List Char) : List Token → Nat → Nat → Nat
  | [], i, _ => i
  | t :: rest, i, d =>
    if colonDepthStep t d = 0 && (colonStop s t || decide (t.kind = TokenType.tkEq)) then i - 1
    else specColonSkip s rest (i + 1) (colonDepthStep t d)

/-- concatenation of the spans of a token list -/
def spansConcat (ts : List Token) (s : List Char) : List Char :=
  ts.foldr (fun t acc => span s t ++ acc) []

/-!
 ## Concrete inputs evaluated by the claims
-/

/-- object literal with an identifier key (claim C1) -/
def c1src : List Char := "{id: 5}".toList

/-- ternary expression with identifier-adjacent colon (claim C1) -/
def c1tern : List Char := "c ? a : b".toList

/-- line comment followed by a second line (claims C2 and C10) -/
def c2src : List Char := "//a\nb".toList

/-- the variable declaration of scenario 1 (claim C3) -/
def c3src : List Char := "let x: number = 5;".toList

/-- generic call at the very start of the buffer (claim C4) -/
def c4src : List Char := "f<T>(x)".toList

/-- the same call with one leading byte (claim C4) -/
def c4srcSp : List Char := " f<T>(x)".toList

/-- comparison chain (claim C4) -/
def c4cmp : List Char := "a<b>c".toList

/-- a type annotation containing a parenthesised, comma-separated list
(claim C5) -/
def c5src : List Char := "x: (a,b) = y".toList

/-- the token array `lex` produces for `c5src` (claim C5) -/
def c5toks : List Token := (lex c5src).getD []

/-- a candidate AngleOpen whose matched AngleClose is followed by an
Optional token (claim C6) -/
def c6src : List Char := " a<b>?:c".toList

/-- the token array `lex` produces for `c6src` (claim C6) -/
def c6toks : List Token := (lex c6src).getD []

/-- the class declaration of scenario 4 (claim C7) -/
def c7src : List Char := "class A implements B { private x: number = 1; }".toList

/-- an optional marker whose output re-lexes as a type annotation (claim C8) -/
def c8src : List Char := "a?: b".toList

/-- a lexically plain buffer (witness of claim C8) -/
def c8plain : List Char := "{x = 5}".toList

/-- malformed input: unterminated annotation and unmatched parenthesis
(claim C9) -/
def c9src : List Char := "x: (a".toList

/-- the optional-parameter input of scenario 5 (claim C10) -/
def c10src : List Char := "age?: number".toList

/-!
 ## Totality of the token-pipeline stripper

Every skip loop of `parse` advances its cursor on every iteration, so fuel
`ts.length + 2` is always sufficient and each loop stops no earlier than one
position before its starting index.  These lemmas discharge claim C9.
-/

theorem kwAt_le (kw : List Char) {s : List Char} {i : Nat} (hk : 0 < kw.length)
    (h : kwAt s i kw = true) : i + kw.length ≤ s.length := by
  unfold kwAt at h
  rw [decide_eq_true_eq] at h
  have h2 := congrArg List.length h
  rw [List.length_take, List.length_drop] at h2
  omega

theorem nxAt_bound {s : List Char} {i : Nat} {c : Char} (h : nxAt s i = c) (hc : c ≠ nul) :
    i + 2 ≤ s.length := by
  unfold nxAt at h
  by_cases h1 : i + 1 < s.length
  · omega
  · rw [if_neg h1] at h
    exact absurd h.symm hc

theorem skipColonF_ge (ts : List Token) (s : List Char) :
    ∀ fuel i d j, skipColonF ts s fuel i d = some j → i ≤ j + 1 := by
  intro fuel
  induction fuel with
  | zero => intro i d j h; simp [skipColonF] at h
  | succ f ih =>
    intro i d j h
    rw [skipColonF] at h
    split at h
    · split at h
      · simp only [Option.some.injEq] at h; omega
      · split at h
        · simp only [Option.some.injEq] at h; omega
        · have := ih _ _ _ h; omega
    · simp only [Option.some.injEq] at h; omega

theorem skipColonF_isSome (ts : List Token) (s : List Char) :
    ∀ fuel i d, i ≤ ts.length → ts.length + 1 - i ≤ fuel →
      (skipColonF ts s fuel i d).isSome = true := by
  intro fuel
  induction fuel with
  | zero => intro i d hi hf; omega
  | succ f ih =>
    intro i d hi hf
    rw [skipColonF]
    split
    case isTrue hlt =>
      split
      · rfl
      · split
        · rfl
        · exact ih _ _ (by omega) (by omega)
    case isFalse hlt => rfl

theorem skipTypeF_ge (ts : List Token) (s : List Char) :
    ∀ fuel i j, skipTypeF ts s fuel i = some j → i ≤ j + 1 := by
  intro fuel
  induction fuel with
  | zero => intro i j h; simp [skipTypeF] at h
  | succ f ih =>
    intro i j h
    rw [skipTypeF] at h
    split at h
    · split at h
      · simp only [Option.some.injEq] at h; omega
      · split at h
        · simp only [Option.some.injEq] at h; omega
        · have := ih _ _ h; omega
    · simp only [Option.some.injEq] at h; omega

theorem skipTypeF_isSome (ts : List Token) (s : List Char) :
    ∀ fuel i, i ≤ ts.length → ts.length + 1 - i ≤ fuel →
      (skipTypeF ts s fuel i).isSome = true := by
  intro fuel
  induction fuel with
  | zero => intro i hi hf; omega
  | succ f ih =>
    intro i hi hf
    rw [skipTypeF]
    split
    case isTrue hlt =>
      split
      · rfl
      · split
        · rfl
        · have : i < ts.length := by
            rcases Bool.and_eq_true .. ▸ hlt with ⟨h1, _⟩
            exact of_decide_eq_true h1
          exact ih _ (by omega) (by omega)
    case isFalse hlt => rfl

theorem skipImplementsF_ge (ts : List Token) (s : List Char) :
    ∀ fuel i j, skipImplementsF ts s fuel i = some j → i ≤ j + 1 := by
  intro fuel
  induction fuel with
  | zero => intro i j h; simp [skipImplementsF] at h
  | succ f ih =>
    intro i j h
    rw [skipImplementsF] at h
    split at h
    · split at h
      · simp only [Option.some.injEq] at h; omega
      · have := ih _ _ h; omega
    · simp only [Option.some.injEq] at h; omega

theorem skipImplementsF_isSome (ts : List Token) (s : List Char) :
    ∀ fuel i, i ≤ ts.length → ts.length + 1 - i ≤ fuel →
      (skipImplementsF ts s fuel i).isSome = true := by
  intro fuel
  induction fuel with
  | zero => intro i hi hf; omega
  | succ f ih =>
    intro i hi hf
    rw [skipImplementsF]
    split
    case isTrue hlt =>
      split
      · rfl
      · have : i < ts.length := by
          rcases Bool.and_eq_true .. ▸ hlt with ⟨h1, _⟩
          exact of_decide_eq_true h1
        exact ih _ (by omega) (by omega)
    case isFalse hlt => rfl

theorem skipAsF_ge (ts : List Token) (s : List Char) :
    ∀ fuel i j, skipAsF ts s fuel i = some j → i ≤ j + 1 := by
  intro fuel
  induction fuel with
  | zero => intro i j h; simp [skipAsF] at h
  | succ f ih =>
    intro i j h
    rw [skipAsF] at h
    split at h
    · split at h
      · simp only [Option.some.injEq] at h; omega
      · have := ih _ _ h; omega
    · simp only [Option.some.injEq] at h; omega

theorem skipAsF_isSome (ts : List Token) (s : List Char) :
    ∀ fuel i, i ≤ ts.length → ts.length + 1 - i ≤ fuel →
      (skipAsF ts s fuel i).isSome = true := by
  intro fuel
  induction fuel with
  | zero => intro i hi hf; omega
  | succ f ih =>
    intro i hi hf
    rw [skipAsF]
    split
    case isTrue hlt =>
      split
      · rfl
      · exact ih _ (by omega) (by omega)
    case isFalse hlt => rfl

theorem skipGenericF_ge (ts : List Token) :
    ∀ fuel i d j, skipGenericF ts fuel i d = some j → i ≤ j + 1 := by
  intro fuel
  induction fuel with
  | zero => intro i d j h; simp [skipGenericF] at h
  | succ f ih =>
    intro i d j h
    rw [skipGenericF] at h
    split at h
    · split at h
      · have := ih _ _ _ h; omega
      · split at h
        · split at h
          · simp only [Option.some.injEq] at h; omega
          · have := ih _ _ _ h; omega
        · have := ih _ _ _ h; omega
    · simp only [Option.some.injEq] at h; omega

theorem skipGenericF_isSome (ts : List Token) :
    ∀ fuel i d, i ≤ ts.length → ts.length + 1 - i ≤ fuel →
      (skipGenericF ts fuel i d).isSome = true := by
  intro fuel
  induction fuel with
  | zero => intro i d hi hf; omega
  | succ f ih =>
    intro i d hi hf
    rw [skipGenericF]
    split
    case isTrue hlt =>
      have hil : i < ts.length := by
        rcases Bool.and_eq_true .. ▸ hlt with ⟨h1, _⟩
        exact of_decide_eq_true h1
      split
      · exact ih _ _ (by omega) (by omega)
      · split
        · split
          · rfl
          · exact ih _ _ (by omega) (by omega)
        · exact ih _ _ (by omega) (by omega)
    case isFalse hlt => rfl

theorem interfaceBracesF_ge (ts : List Token) (s : List Char) :
    ∀ fuel i bc j, interfaceBracesF ts s fuel i bc = some j → i ≤ j := by
  intro fuel
  induction fuel with
  | zero => intro i bc j h; simp [interfaceBracesF] at h
  | succ f ih =>
    intro i bc j h
    rw [interfaceBracesF] at h
    split at h
    · have := ih _ _ _ h; omega
    · simp only [Option.some.injEq] at h; omega

theorem interfaceBracesF_isSome (ts : List Token) (s : List Char) :
    ∀ fuel i bc, i ≤ ts.length → ts.length + 1 - i ≤ fuel →
      (interfaceBracesF ts s fuel i bc).isSome = true := by
  intro fuel
  induction fuel with
  | zero => intro i bc hi hf; omega
  | succ f ih =>
    intro i bc hi hf
    rw [interfaceBracesF]
    split
    case isTrue hlt =>
      have : i < ts.length := by
        rcases Bool.and_eq_true .. ▸ hlt with ⟨h1, _⟩
        exact of_decide_eq_true h1
      exact ih _ _ (by omega) (by omega)
    case isFalse hlt => rfl

theorem skipInterfaceF_ge (ts : List Token) (s : List Char) :
    ∀ fuel i j, skipInterfaceF ts s fuel i = some j → i ≤ j + 1 := by
  intro fuel
  induction fuel with
  | zero => intro i j h; simp [skipInterfaceF] at h
  | succ f ih =>
    intro i j h
    rw [skipInterfaceF] at h
    split at h
    · split at h
      · rcases Option.map_eq_some'.mp h with ⟨q, hq, rfl⟩
        have := interfaceBracesF_ge ts s _ _ _ _ hq
        omega
      · split at h
        · simp only [Option.some.injEq] at h; omega
        · have := ih _ _ h; omega
    · simp only [Option.some.injEq] at h; omega

theorem skipInterfaceF_isSome (ts : List Token) (s : List Char) :
    ∀ fuel i, i ≤ ts.length → ts.length + 2 - i ≤ fuel →
      (skipInterfaceF ts s fuel i).isSome = true := by
  intro fuel
  induction fuel with
  | zero => intro i hi hf; omega
  | succ f ih =>
    intro i hi hf
    rw [skipInterfaceF]
    split
    case isTrue hlt =>
      have hlen : i < ts.length := by
        rcases Bool.and_eq_true .. ▸ hlt with ⟨h1, _⟩
        exact of_decide_eq_true h1
      split
      · rw [Option.isSome_map']
        exact interfaceBracesF_isSome ts s _ _ _ (by omega) (by omega)
      · split
        · rfl
        · exact ih _ (by omega) (by omega)
    case isFalse hlt => rfl

theorem findMatchGtF_isSome (ts : List Token) :
    ∀ fuel la d, la ≤ ts.length → ts.length + 1 - la ≤ fuel →
      (findMatchGtF ts fuel la d).isSome = true := by
  intro fuel
  induction fuel with
  | zero => intro la d hi hf; omega
  | succ f ih =>
    intro la d hi hf
    rw [findMatchGtF]
    split
    case isTrue hlt =>
      have : la < ts.length := by
        rcases Bool.and_eq_true .. ▸ hlt with ⟨h1, _⟩
        exact of_decide_eq_true h1
      split
      · exact ih _ _ (by omega) (by omega)
      · split
        · split
          · rfl
          · exact ih _ _ (by omega) (by omega)
        · exact ih _ _ (by omega) (by omega)
    case isFalse hlt => rfl

theorem findMatchGtF_found_lt (ts : List Token) :
    ∀ fuel la d m, findMatchGtF ts fuel la d = some (some m) → m < ts.length := by
  intro fuel
  induction fuel with
  | zero => intro la d m h; simp [findMatchGtF] at h
  | succ f ih =>
    intro la d m h
    rw [findMatchGtF] at h
    split at h
    case isTrue hlt =>
      have hla : la < ts.length := by
        rcases Bool.and_eq_true .. ▸ hlt with ⟨h1, _⟩
        exact of_decide_eq_true h1
      split at h
      · exact ih _ _ _ h
      · split at h
        · split at h
          · simp only [Option.some.injEq] at h; omega
          · exact ih _ _ _ h
        · exact ih _ _ _ h
    case isFalse hlt => simp at h

theorem skipWsF_isSome (ts : List Token) (s : List Char) :
    ∀ fuel la, la ≤ ts.length → ts.length + 1 - la ≤ fuel →
      (skipWsF ts s fuel la).isSome = true := by
  intro fuel
  induction fuel with
  | zero => intro la hi hf; omega
  | succ f ih =>
    intro la hi hf
    rw [skipWsF]
    split
    case isTrue hlt =>
      have : la < ts.length := by
        rcases Bool.and_eq_true .. ▸ hlt with ⟨h1, _⟩
        exact of_decide_eq_true h1
      split
      · rfl
      · exact ih _ (by omega) (by omega)
    case isFalse hlt => rfl

theorem ltLooksGenericF_isSome (ts : List Token) (s : List Char) (i : Nat)
    (hi : i < ts.length) : (ltLooksGenericF ts s (ts.length + 2) i).isSome = true := by
  rw [ltLooksGenericF]
  split
  · have hm := findMatchGtF_isSome ts (ts.length + 2) (i + 1) 1 (by omega) (by omega)
    rcases Option.isSome_iff_exists.mp hm with ⟨o, ho⟩
    cases o with
    | none => simp only [ho]; rfl
    | some m =>
      have hmlt := findMatchGtF_found_lt ts _ _ _ _ ho
      have hw := skipWsF_isSome ts s (ts.length + 2) (m + 1) (by omega) (by omega)
      rcases Option.isSome_iff_exists.mp hw with ⟨la, hla⟩
      simp only [ho, hla]
      rfl
  · rfl

theorem parseAuxF_isSome (ts : List Token) (s : List Char) :
    ∀ fuel i, ts.length + 1 - i ≤ fuel → 0 < fuel →
      (parseAuxF ts s fuel i).isSome = true := by
  intro fuel
  induction fuel with
  | zero => intro i hf h0; omega
  | succ f ih =>
    intro i hf h0
    rw [parseAuxF]
    split
    case isTrue hlt =>
      have hstep : ∀ j, i ≤ j → (parseAuxF ts s f (j + 1)).isSome = true := by
        intro j hj
        exact ih (j + 1) (by omega) (by omega)
      cases hk : (ts.getD i dfltTok).kind with
      | tkString => rw [Option.isSome_map']; exact hstep i (le_refl i)
      | tkBlockComment => rw [Option.isSome_map']; exact hstep i (le_refl i)
      | tkLineComment => rw [Option.isSome_map']; exact hstep i (le_refl i)
      | tkCode => rw [Option.isSome_map']; exact hstep i (le_refl i)
      | tkGt => rw [Option.isSome_map']; exact hstep i (le_refl i)
      | tkEq => rw [Option.isSome_map']; exact hstep i (le_refl i)
      | tkLt =>
        have hg := ltLooksGenericF_isSome ts s i hlt
        rcases Option.isSome_iff_exists.mp hg with ⟨b, hb⟩
        rw [hb]
        cases b with
        | false => rw [Option.isSome_map']; exact hstep i (le_refl i)
        | true =>
          have hsk := skipGenericF_isSome ts (ts.length + 2) (i + 1) 1 (by omega) (by omega)
          rcases Option.isSome_iff_exists.mp hsk with ⟨j, hj⟩
          rw [hj]
          exact hstep j (by have := skipGenericF_ge ts _ _ _ _ hj; omega)
      | tkInterface =>
        have hsk := skipInterfaceF_isSome ts s (ts.length + 2) (i + 1) (by omega) (by omega)
        rcases Option.isSome_iff_exists.mp hsk with ⟨j, hj⟩
        rw [hj]
        exact hstep j (by have := skipInterfaceF_ge ts s _ _ _ hj; omega)
      | tkType =>
        have hsk := skipTypeF_isSome ts s (ts.length + 2) (i + 1) (by omega) (by omega)
        rcases Option.isSome_iff_exists.mp hsk with ⟨j, hj⟩
        rw [hj]
        exact hstep j (by have := skipTypeF_ge ts s _ _ _ hj; omega)
      | tkColon =>
        have hsk := skipColonF_isSome ts s (ts.length + 2) (i + 1) 0 (by omega) (by omega)
        rcases Option.isSome_iff_exists.mp hsk with ⟨j, hj⟩
        rw [hj]
        exact hstep j (by have := skipColonF_ge ts s _ _ _ _ hj; omega)
      | tkImplements =>
        have hsk := skipImplementsF_isSome ts s (ts.length + 2) (i + 1) (by omega) (by omega)
        rcases Option.isSome_iff_exists.mp hsk with ⟨j, hj⟩
        rw [hj]
        rw [Option.isSome_map']
        exact hstep j (by have := skipImplementsF_ge ts s _ _ _ hj; omega)
      | tkAs =>
        have hsk := skipAsF_isSome ts s (ts.length + 2) (i + 1) (by omega) (by omega)
        rcases Option.isSome_iff_exists.mp hsk with ⟨j, hj⟩
        rw [hj]
        rw [Option.isSome_map']
        exact hstep j (by have := skipAsF_ge ts s _ _ _ hj; omega)
      | tkOptional => rw [Option.isSome_map']; exact hstep i (le_refl i)
      | tkPrivate => exact hstep i (le_refl i)
      | tkEof => exact hstep i (le_refl i)
    case isFalse hlt => rfl

/-- one-step unfolding of the lexer loop in state `STATE_CODE` -/
theorem lexAuxF_succ_code (s : List Char) (f i : Nat) (dl : Char) (tst ln : Nat) :
    lexAuxF s (f + 1) i LexState.stCode dl tst ln =
    if i < s.length then
      (if isStrDelim (chAt s i) && noBackslashBefore s i then
        lexAuxF s f (i + 1) LexState.stString (chAt s i) i ln
      else if chAt s i = '/' && nxAt s i = '*' then
        lexAuxF s f (i + 2) LexState.stBlock dl i ln
      else if chAt s i = '/' && nxAt s i = '/' then
        lexAuxF s f (i + 2) LexState.stLine dl i ln
      else if kwAt s i kwInterfaceL && identBoundary s (i + 9) then
        (lexAuxF s f (i + 9) LexState.stCode dl tst ln).map (mkTok TokenType.tkInterface i 9 ln :: ·)
      else if kwAt s i kwTypeSpL then
        (lexAuxF s f (i + 4) LexState.stCode dl tst ln).map (mkTok TokenType.tkType i 4 ln :: ·)
      else if kwAt s i kwImplementsSpL then
        (lexAuxF s f (i + 10) LexState.stCode dl tst ln).map (mkTok TokenType.tkImplements i 10 ln :: ·)
      else if decide (i + 3 < s.length) && decide (0 < i) && (chAt s (i - 1) = ' ') && kwAt s i kwAsSpL then
        (lexAuxF s f (i + 2) LexState.stCode dl tst ln).map (mkTok TokenType.tkAs i 2 ln :: ·)
      else if kwAt s i kwPrivateL && identBoundary s (i + 7) then
        (lexAuxF s f (i + 7) LexState.stCode dl tst ln).map (mkTok TokenType.tkPrivate i 7 ln :: ·)
      else if chAt s i = '?' && nxAt s i = ':' then
        (lexAuxF s f (i + 2) LexState.stCode dl tst ln).map (mkTok TokenType.tkOptional i 2 ln :: ·)
      else if chAt s i = ':' && colonIsAnnot s i then
        (lexAuxF s f (i + 1) LexState.stCode dl tst ln).map (mkTok TokenType.tkColon i 1 ln :: ·)
      else if chAt s i = '<' then
        (lexAuxF s f (i + 1) LexState.stCode dl tst ln).map (mkTok TokenType.tkLt i 1 ln :: ·)
      else if chAt s i = '>' then
        (lexAuxF s f (i + 1) LexState.stCode dl tst ln).map (mkTok TokenType.tkGt i 1 ln :: ·)
      else if chAt s i = '=' then
        (lexAuxF s f (i + 1) LexState.stCode dl tst ln).map (mkTok TokenType.tkEq i 1 ln :: ·)
      else
        (lexAuxF s f (i + 1) LexState.stCode dl i
            (if chAt s i = '\n' then ln + 1 else ln)).map (mkTok TokenType.tkCode i 1 ln :: ·))
    else some [mkTok TokenType.tkEof i 0 ln] := rfl

/-- one-step unfolding of the lexer loop in state `STATE_STRING` -/
theorem lexAuxF_succ_string (s : List Char) (f i : Nat) (dl : Char) (tst ln : Nat) :
    lexAuxF s (f + 1) i LexState.stString dl tst ln =
    if i < s.length then
      (if chAt s i = dl && noBackslashBefore s i then
        (lexAuxF s f (i + 1) LexState.stCode dl tst ln).map
          (mkTok TokenType.tkString tst (i + 1 - tst) ln :: ·)
      else
        lexAuxF s f (i + 1) LexState.stString dl tst ln)
    else some [mkTok TokenType.tkEof i 0 ln] := rfl

/-- one-step unfolding of the lexer loop in state `STATE_BLOCK_COMMENT` -/
theorem lexAuxF_succ_block (s : List Char) (f i : Nat) (dl : Char) (tst ln : Nat) :
    lexAuxF s (f + 1) i LexState.stBlock dl tst ln =
    if i < s.length then
      (if chAt s i = '*' && nxAt s i = '/' then
        (lexAuxF s f (i + 2) LexState.stCode dl tst ln).map
          (mkTok TokenType.tkBlockComment tst (i + 2 - tst) ln :: ·)
      else
        lexAuxF s f (i + 1) LexState.stBlock dl tst (if chAt s i = '\n' then ln + 1 else ln))
    else some [mkTok TokenType.tkEof i 0 ln] := rfl

/-- one-step unfolding of the lexer loop in state `STATE_LINE_COMMENT` -/
theorem lexAuxF_succ_line (s : List Char) (f i : Nat) (dl : Char) (tst ln : Nat) :
    lexAuxF s (f + 1) i LexState.stLine dl tst ln =
    if i < s.length then
      (if chAt s i = '\n' then
        (lexAuxF s f (i + 1) LexState.stCode dl tst (ln + 2)).map
          (mkTok TokenType.tkLineComment tst (i - tst) ln :: ·)
      else
        lexAuxF s f (i + 1) LexState.stLine dl tst ln)
    else some [mkTok TokenType.tkEof i 0 ln] := rfl

theorem lexAuxF_isSome (s : List Char) :
    ∀ fuel i st dl tst ln, i ≤ s.length → s.length + 1 - i ≤ fuel →
      (lexAuxF s fuel i st dl tst ln).isSome = true := by
  intro fuel
  induction fuel with
  | zero => intro i st dl tst ln hi hf; omega
  | succ f ih =>
    intro i st dl tst ln hi hf
    have hstep : ∀ j st2 dl2 tst2 ln2, j ≤ s.length → i < j →
        (lexAuxF s f j st2 dl2 tst2 ln2).isSome = true := by
      intro j st2 dl2 tst2 ln2 hj hij
      exact ih j st2 dl2 tst2 ln2 hj (by omega)
    cases st with
    | stCode =>
      rw [lexAuxF_succ_code]
      by_cases hlt : i < s.length
      case neg => rw [if_neg hlt]; rfl
      case pos =>
      rw [if_pos hlt]
      by_cases h1 : (isStrDelim (chAt s i) && noBackslashBefore s i) = true
      · rw [if_pos h1]
        exact hstep (i + 1) _ _ _ _ (by omega) (by omega)
      rw [if_neg h1]
      by_cases h2 : (decide (chAt s i = '/') && decide (nxAt s i = '*')) = true
      · rw [if_pos h2]
        rcases Bool.and_eq_true .. ▸ h2 with ⟨-, hx⟩
        have := nxAt_bound (of_decide_eq_true hx) (by decide)
        exact hstep (i + 2) _ _ _ _ (by omega) (by omega)
      rw [if_neg h2]
      by_cases h3 : (decide (chAt s i = '/') && decide (nxAt s i = '/')) = true
      · rw [if_pos h3]
        rcases Bool.and_eq_true .. ▸ h3 with ⟨-, hx⟩
        have := nxAt_bound (of_decide_eq_true hx) (by decide)
        exact hstep (i + 2) _ _ _ _ (by omega) (by omega)
      rw [if_neg h3]
      by_cases h4 : (kwAt s i kwInterfaceL && identBoundary s (i + 9)) = true
      · rw [if_pos h4]
        rcases Bool.and_eq_true .. ▸ h4 with ⟨hx, -⟩
        have h9 := kwAt_le kwInterfaceL (by decide) hx
        have h10 : kwInterfaceL.length = 9 := by decide
        rw [Option.isSome_map']
        exact hstep (i + 9) _ _ _ _ (by omega) (by omega)
      rw [if_neg h4]
      by_cases h5 : kwAt s i kwTypeSpL = true
      · rw [if_pos h5]
        have h9 := kwAt_le kwTypeSpL (by decide) h5
        have h10 : kwTypeSpL.length = 5 := by decide
        rw [Option.isSome_map']
        exact hstep (i + 4) _ _ _ _ (by omega) (by omega)
      rw [if_neg h5]
      by_cases h6 : kwAt s i kwImplementsSpL = true
      · rw [if_pos h6]
        have h9 := kwAt_le kwImplementsSpL (by decide) h6
        have h10 : kwImplementsSpL.length = 11 := by decide
        rw [Option.isSome_map']
        exact hstep (i + 10) _ _ _ _ (by omega) (by omega)
      rw [if_neg h6]
      by_cases h7 : (decide (i + 3 < s.length) && decide (0 < i) &&
          decide (chAt s (i - 1) = ' ') && kwAt s i kwAsSpL) = true
      · rw [if_pos h7]
        rcases Bool.and_eq_true .. ▸ h7 with ⟨hx, -⟩
        rcases Bool.and_eq_true .. ▸ hx with ⟨hy, -⟩
        rcases Bool.and_eq_true .. ▸ hy with ⟨hz, -⟩
        have := of_decide_eq_true hz
        rw [Option.isSome_map']
        exact hstep (i + 2) _ _ _ _ (by omega) (by omega)
      rw [if_neg h7]
      by_cases h8 : (kwAt s i kwPrivateL && identBoundary s (i + 7)) = true
      · rw [if_pos h8]
        rcases Bool.and_eq_true .. ▸ h8 with ⟨hx, -⟩
        have h9 := kwAt_le kwPrivateL (by decide) hx
        have h10 : kwPrivateL.length = 7 := by decide
        rw [Option.isSome_map']
        exact hstep (i + 7) _ _ _ _ (by omega) (by omega)
      rw [if_neg h8]
      by_cases h9 : (decide (chAt s i = '?') && decide (nxAt s i = ':')) = true
      · rw [if_pos h9]
        rcases Bool.and_eq_true .. ▸ h9 with ⟨-, hx⟩
        have := nxAt_bound (of_decide_eq_true hx) (by decide)
        rw [Option.isSome_map']
        exact hstep (i + 2) _ _ _ _ (by omega) (by omega)
      rw [if_neg h9]
      by_cases h10 : (decide (chAt s i = ':') && colonIsAnnot s i) = true
      · rw [if_pos h10, Option.isSome_map']
        exact hstep (i + 1) _ _ _ _ (by omega) (by omega)
      rw [if_neg h10]
      by_cases h11 : chAt s i = '<'
      · rw [if_pos h11, Option.isSome_map']
        exact hstep (i + 1) _ _ _ _ (by omega) (by omega)
      rw [if_neg h11]
      by_cases h12 : chAt s i = '>'
      · rw [if_pos h12, Option.isSome_map']
        exact hstep (i + 1) _ _ _ _ (by omega) (by omega)
      rw [if_neg h12]
      by_cases h13 : chAt s i = '='
      · rw [if_pos h13, Option.isSome_map']
        exact hstep (i + 1) _ _ _ _ (by omega) (by omega)
      rw [if_neg h13, Option.isSome_map']
      exact hstep (i + 1) _ _ _ _ (by omega) (by omega)
    | stString =>
      rw [lexAuxF_succ_string]
      by_cases hlt : i < s.length
      case neg => rw [if_neg hlt]; rfl
      case pos =>
      rw [if_pos hlt]
      by_cases h1 : (decide (chAt s i = dl) && noBackslashBefore s i) = true
      · rw [if_pos h1, Option.isSome_map']
        exact hstep (i + 1) _ _ _ _ (by omega) (by omega)
      · rw [if_neg h1]
        exact hstep (i + 1) _ _ _ _ (by omega) (by omega)
    | stBlock =>
      rw [lexAuxF_succ_block]
      by_cases hlt : i < s.length
      case neg => rw [if_neg hlt]; rfl
      case pos =>
      rw [if_pos hlt]
      by_cases h1 : (decide (chAt s i = '*') && decide (nxAt s i = '/')) = true
      · rw [if_pos h1]
        rcases Bool.and_eq_true .. ▸ h1 with ⟨-, hx⟩
        have := nxAt_bound (of_decide_eq_true hx) (by decide)
        rw [Option.isSome_map']
        exact hstep (i + 2) _ _ _ _ (by omega) (by omega)
      · rw [if_neg h1]
        exact hstep (i + 1) _ _ _ _ (by omega) (by omega)
    | stLine =>
      rw [lexAuxF_succ_line]
      by_cases hlt : i < s.length
      case neg => rw [if_neg hlt]; rfl
      case pos =>
      rw [if_pos hlt]
      by_cases h1 : chAt s i = '\n'
      · rw [if_pos h1, Option.isSome_map']
        exact hstep (i + 1) _ _ _ _ (by omega) (by omega)
      · rw [if_neg h1]
        exact hstep (i + 1) _ _ _ _ (by omega) (by omega)

theorem lex_isSome {s : List Char} (h : s ≠ []) : (lex s).isSome = true := by
  rw [lex]
  rw [if_neg (by simpa using List.length_pos.mpr h |>.ne')]
  exact lexAuxF_isSome s (s.length + 1) 0 _ _ _ _ (by omega) (by omega)

theorem strip_types_isSome {s : List Char} (h : s ≠ []) : (strip_types s).isSome = true := by
  rw [strip_types]
  rcases Option.isSome_iff_exists.mp (lex_isSome h) with ⟨ts, hts⟩
  rw [hts]
  exact parseAuxF_isSome ts s (ts.length + 1) 0 (by omega) (by omega)

/-!
 ## The stripper is the identity on lexically plain buffers

On a buffer whose every byte satisfies `plainChar`, the lexer stays in
`STATE_CODE` and produces one single-byte token per byte (`plainTokensF`),
every one of which `parse` preserves verbatim, so `strip_types` is the
identity there.
-/

theorem chAt_eq_getElem {s : List Char} {i : Nat} (h : i < s.length) :
    chAt s i = s[i] := by
  simp [chAt, List.getD_eq_getElem?_getD, List.getElem?_eq_getElem h]

theorem chAt_mem {s : List Char} {i : Nat} (h : i < s.length) : chAt s i ∈ s := by
  rw [chAt_eq_getElem h]
  exact List.getElem_mem h

theorem drop_eq_chAt_cons {s : List Char} {i : Nat} (h : i < s.length) :
    s.drop i = chAt s i :: s.drop (i + 1) := by
  rw [chAt_eq_getElem h]
  exact List.drop_eq_getElem_cons h

theorem kwAt_head {s kw : List Char} {i : Nat} (hk : 0 < kw.length) (h : kwAt s i kw = true) :
    chAt s i = kw.headD nul := by
  unfold kwAt at h
  rw [decide_eq_true_eq] at h
  have h2 := congrArg List.length h
  rw [List.length_take, List.length_drop] at h2
  have hlt : i < s.length := by omega
  cases kw with
  | nil => simp at hk
  | cons c rest =>
    rw [drop_eq_chAt_cons hlt] at h
    simp only [List.length_cons, List.take_succ_cons, List.cons.injEq] at h
    simpa using h.1

theorem plain_split {c : Char} (h : plainChar c = true) :
    ¬(c = dquote) ∧ ¬(c = squote) ∧ ¬(c = btick) ∧ ¬(c = '/') ∧ ¬(c = ':') ∧
    ¬(c = '<') ∧ ¬(c = 't') ∧ ¬(c = 'a') ∧ ¬(c = 'i') ∧ ¬(c = 'p') := by
  unfold plainChar at h
  simp at h
  tauto

theorem plain_nxAt_ne (s : List Char) (hp : ∀ c ∈ s, plainChar c = true) (i : Nat)
    (c : Char) (hc : plainChar c = false) (hn : ¬(c = nul)) : ¬(nxAt s i = c) := by
  intro h
  unfold nxAt at h
  by_cases h1 : i + 1 < s.length
  · rw [if_pos h1] at h
    have := hp (chAt s (i + 1)) (chAt_mem h1)
    rw [h] at this
    rw [this] at hc
    cases hc
  · rw [if_neg h1] at h
    exact hn h.symm

theorem lexAuxF_plain (s : List Char) (hp : ∀ c ∈ s, plainChar c = true) :
    ∀ fuel i dl tst ln, i ≤ s.length → s.length + 1 - i ≤ fuel →
      lexAuxF s fuel i LexState.stCode dl tst ln =
        some (plainTokensF s (s.length - i) i ln) := by
  intro fuel
  induction fuel with
  | zero => intro i dl tst ln hi hf; omega
  | succ f ih =>
    intro i dl tst ln hi hf
    rw [lexAuxF_succ_code]
    by_cases hlt : i < s.length
    case neg =>
      rw [if_neg hlt]
      rw [show s.length - i = 0 from by omega]
      rfl
    case pos =>
    rw [if_pos hlt]
    rcases plain_split (hp (chAt s i) (chAt_mem hlt)) with
      ⟨hq1, hq2, hq3, hsl, hco, hltc, hkt, hka, hki, hkp⟩
    have hdelim : isStrDelim (chAt s i) = false := by
      unfold isStrDelim
      simp [hq1, hq2, hq3]
    have hkw1 : kwAt s i kwInterfaceL = false := by
      cases hx : kwAt s i kwInterfaceL
      · rfl
      · refine absurd ?_ hki
        rw [kwAt_head (by decide) hx]
        decide
    have hkw2 : kwAt s i kwTypeSpL = false := by
      cases hx : kwAt s i kwTypeSpL
      · rfl
      · refine absurd ?_ hkt
        rw [kwAt_head (by decide) hx]
        decide
    have hkw3 : kwAt s i kwImplementsSpL = false := by
      cases hx : kwAt s i kwImplementsSpL
      · rfl
      · refine absurd ?_ hki
        rw [kwAt_head (by decide) hx]
        decide
    have hkw4 : kwAt s i kwAsSpL = false := by
      cases hx : kwAt s i kwAsSpL
      · rfl
      · refine absurd ?_ hka
        rw [kwAt_head (by decide) hx]
        decide
    have hkw5 : kwAt s i kwPrivateL = false := by
      cases hx : kwAt s i kwPrivateL
      · rfl
      · refine absurd ?_ hkp
        rw [kwAt_head (by decide) hx]
        decide
    rw [if_neg (by simp [hdelim])]
    rw [if_neg (by simp [hsl])]
    rw [if_neg (by simp [hsl])]
    rw [if_neg (by simp [hkw1])]
    rw [if_neg (by simp [hkw2])]
    rw [if_neg (by simp [hkw3])]
    rw [if_neg (by simp [hkw4])]
    rw [if_neg (by simp [hkw5])]
    rw [if_neg (by
      simp only [Bool.and_eq_true, decide_eq_true_eq, not_and]
      intro _
      exact plain_nxAt_ne s hp i ':' (by decide) (by decide))]
    rw [if_neg (by simp [hco])]
    rw [if_neg hltc]
    rw [show s.length - i = (s.length - (i + 1)) + 1 from by omega]
    by_cases hgt : chAt s i = '>'
    · rw [if_pos hgt, ih (i + 1) dl tst ln (by omega) (by omega)]
      simp only [Option.map_some', Option.some.injEq, plainTokensF]
      rw [show plainKind (chAt s i) = TokenType.tkGt from by simp [plainKind, hgt, hltc]]
      rw [show (if chAt s i = '\n' then ln + 1 else ln) = ln from by rw [if_neg (by simp [hgt])]]
    · rw [if_neg hgt]
      by_cases heq : chAt s i = '='
      · rw [if_pos heq, ih (i + 1) dl tst ln (by omega) (by omega)]
        simp only [Option.map_some', Option.some.injEq, plainTokensF]
        rw [show plainKind (chAt s i) = TokenType.tkEq from by simp [plainKind, heq, hltc, hgt]]
        rw [show (if chAt s i = '\n' then ln + 1 else ln) = ln from by rw [if_neg (by simp [heq])]]
      · rw [if_neg heq,
          ih (i + 1) dl i (if chAt s i = '\n' then ln + 1 else ln) (by omega) (by omega)]
        simp only [Option.map_some', Option.some.injEq, plainTokensF]
        rw [show plainKind (chAt s i) = TokenType.tkCode from by simp [plainKind, hltc, hgt, heq]]

theorem ptf_length (s : List Char) :
    ∀ n i ln, (plainTokensF s n i ln).length = n + 1 := by
  intro n
  induction n with
  | zero => intro i ln; rfl
  | succ k ih => intro i ln; simp [plainTokensF, ih]

theorem ptf_getD_lt (s : List Char) :
    ∀ n i ln j, j < n → ∃ ln2, (plainTokensF s n i ln).getD j dfltTok =
      mkTok (plainKind (chAt s (i + j))) (i + j) 1 ln2 := by
  intro n
  induction n with
  | zero => intro i ln j hj; omega
  | succ m ih =>
    intro i ln j hj
    cases j with
    | zero => exact ⟨ln, by simp [plainTokensF]⟩
    | succ k =>
      rcases ih (i + 1) (if chAt s i = '\n' then ln + 1 else ln) k (by omega) with ⟨ln2, h⟩
      refine ⟨ln2, ?_⟩
      simp only [plainTokensF, List.getD_cons_succ]
      rw [h, show i + 1 + k = i + (k + 1) from by omega]

theorem ptf_getD_eof (s : List Char) :
    ∀ n i ln, ∃ ln2, (plainTokensF s n i ln).getD n dfltTok =
      mkTok TokenType.tkEof (i + n) 0 ln2 := by
  intro n
  induction n with
  | zero => intro i ln; exact ⟨ln, by simp [plainTokensF]⟩
  | succ m ih =>
    intro i ln
    rcases ih (i + 1) (if chAt s i = '\n' then ln + 1 else ln) with ⟨ln2, h⟩
    refine ⟨ln2, ?_⟩
    simp only [plainTokensF, List.getD_cons_succ]
    rw [h, show i + 1 + m = i + (m + 1) from by omega]

theorem parseAuxF_plain (s : List Char) (hp : ∀ c ∈ s, plainChar c = true) :
    ∀ fuel i, i ≤ s.length + 1 → s.length + 2 - i ≤ fuel →
      parseAuxF (plainTokensF s s.length 0 1) s fuel i = some (s.drop i) := by
  intro fuel
  induction fuel with
  | zero => intro i hile hf; omega
  | succ f ih =>
    intro i hile hf
    rw [parseAuxF]
    have hlen : (plainTokensF s s.length 0 1).length = s.length + 1 := ptf_length s _ _ _
    by_cases hi : i < (plainTokensF s s.length 0 1).length
    case neg =>
      rw [if_neg hi]
      rw [List.drop_eq_nil_of_le (by omega)]
    case pos =>
    rw [if_pos hi]
    by_cases hiL : i < s.length
    · rcases ptf_getD_lt s s.length 0 1 i (by omega) with ⟨ln2, hgd⟩
      rw [show (0 : Nat) + i = i from by omega] at hgd
      rcases plain_split (hp (chAt s i) (chAt_mem hiL)) with
        ⟨-, -, -, -, -, hltc, -, -, -, -⟩
      have hspan : span s ((plainTokensF s s.length 0 1).getD i dfltTok) = [chAt s i] := by
        rw [hgd]
        unfold span mkTok
        simp only
        rw [drop_eq_chAt_cons hiL]
        rfl
      have hrest := ih (i + 1) (by omega) (by omega)
      by_cases hgt : chAt s i = '>'
      · have hk : ((plainTokensF s s.length 0 1).getD i dfltTok).kind = TokenType.tkGt := by
          rw [hgd]; simp [mkTok, plainKind, hgt, hltc]
        simp only [hk, hrest, hspan, Option.map_some', Option.some.injEq]
        rw [drop_eq_chAt_cons hiL]
        rfl
      · by_cases heq : chAt s i = '='
        · have hk : ((plainTokensF s s.length 0 1).getD i dfltTok).kind = TokenType.tkEq := by
            rw [hgd]; simp [mkTok, plainKind, heq, hltc, hgt]
          simp only [hk, hrest, hspan, Option.map_some', Option.some.injEq]
          rw [drop_eq_chAt_cons hiL]
          rfl
        · have hk : ((plainTokensF s s.length 0 1).getD i dfltTok).kind = TokenType.tkCode := by
            rw [hgd]; simp [mkTok, plainKind, hltc, hgt, heq]
          simp only [hk, hrest, hspan, Option.map_some', Option.some.injEq]
          rw [drop_eq_chAt_cons hiL]
          rfl
    · have hiEq : i = s.length := by omega
      subst hiEq
      rcases ptf_getD_eof s s.length 0 1 with ⟨ln2, hgd⟩
      rw [show (0 : Nat) + s.length = s.length from by omega] at hgd
      have hk : ((plainTokensF s s.length 0 1).getD s.length dfltTok).kind =
          TokenType.tkEof := by
        rw [hgd]
        rfl
      simp only [hk]
      rw [ih (s.length + 1) (by omega) (by omega)]
      rw [List.drop_eq_nil_of_le (by omega), List.drop_eq_nil_of_le (by omega)]

theorem strip_types_plain (s : List Char) (h0 : s ≠ []) (hp : ∀ c ∈ s, plainChar c = true) :
    strip_types s = some s := by
  rw [strip_types, lex]
  rw [if_neg (by simpa using List.length_pos.mpr h0 |>.ne')]
  rw [lexAuxF_plain s hp (s.length + 1) 0 nul 0 1 (by omega) (by omega)]
  rw [Nat.sub_zero]
  rw [Option.some_bind]
  rw [parse]
  rw [ptf_length]
  rw [parseAuxF_plain s hp (s.length + 1 + 1) 0 (by omega) (by omega)]
  rw [List.drop_zero]


/-!
 ## Helper facts for the colon-skip specification
-/

theorem tsDrop_cons {ts : List Token} {i : Nat} (h : i < ts.length) :
    ts.drop i = ts.getD i dfltTok :: ts.drop (i + 1) := by
  rw [show ts.getD i dfltTok = ts[i] from by
    simp [List.getD_eq_getElem?_getD, List.getElem?_eq_getElem h]]
  exact List.drop_eq_getElem_cons h

theorem specColonSkip_nil (s : List Char) (i d : Nat) : specColonSkip s [] i d = i := rfl

theorem specColonSkip_cons (s : List Char) (t : Token) (rest : List Token) (i d : Nat) :
    specColonSkip s (t :: rest) i d =
      if colonDepthStep t d = 0 && (colonStop s t || decide (t.kind = TokenType.tkEq)) then i - 1
      else specColonSkip s rest (i + 1) (colonDepthStep t d) := rfl

/-!
 ## The claims
-/

/-- C1.  Round-trip safety fails on the code: the lexer classifies the colon
of the object literal `{id: 5}` as a type annotation (its nearest preceding
non-whitespace byte `d` is alphanumeric), so `strip_types` elides `: 5` and
returns `{id}`; likewise the ternary `c ? a : b` loses `: b`.  The claim —
backed by the repository README, whose example output keeps
`{ id: 1, name: "John" }` intact and which promises that the stripper
"preserves comments, strings, and code structure" — states the intended
behaviour, so the code, not the claim, is wrong here. -/
theorem claim_C1 :
    strip_types c1src = some ("{id}".toList) ∧ ¬("{id}".toList = c1src) ∧
    strip_types c1tern = some ("c ? a ".toList) ∧ ¬("c ? a ".toList = c1tern) := by
  refine ⟨by decide, by decide, by decide, by decide⟩

/-- C2.  The lexer partition invariant fails on the code: for `//a\nb` the
lexer emits a LineComment token of length 3 (bytes 0–2) and then a Code
token at offset 4 — the newline byte at offset 3 that terminated the line
comment belongs to no token, so the concatenated spans give `//ab`, not the
input.  (An input ending inside a string, block comment or unterminated
line comment likewise contributes no token at all for those bytes.)  The
claim matches the specification's own invariant and the README's
preservation promise, so this is a code defect. -/
theorem claim_C2 :
    (lex c2src).map (fun ts => spansConcat ts c2src) = some ("//ab".toList) ∧
    ¬("//ab".toList = c2src) := by
  refine ⟨by decide, by decide⟩

/-- C3 (corrected).  `strip_types "let x: number = 5;"` returns
`"let x= 5;"`, not the claimed `"let x = 5;"`: the colon skip consumes every
token up to — including the space before — the Equals token, so no space
survives on the left of `=`. -/
theorem claim_C3 : strip_types c3src = some ("let x= 5;".toList) := by decide

/-- C3, the claim as stated is false: the output is not `let x = 5;`. -/
theorem claim_C3_cex : ¬(strip_types c3src = some ("let x = 5;".toList)) := by decide

/-- C4 (corrected).  At the public interface `strip_types "f<T>(x)"` returns
the input unchanged: the backward scan of the generic disambiguation runs
`while (prev > 0 && ...)` starting from `prev = i - 1 = 0`, so it never
inspects token 0 and the AngleOpen is not a generic candidate.  With any
single byte in front (` f<T>(x)`) the generic is recognised and elided, and
the comparison chain `a<b>c` is returned unchanged as claimed. -/
theorem claim_C4 :
    strip_types c4src = some c4src ∧
    strip_types c4srcSp = some (" f(x)".toList) ∧
    strip_types c4cmp = some c4cmp := by
  refine ⟨by decide, by decide, by decide⟩

/-- C4, the claim as stated is false: `strip_types "f<T>(x)"` is not
`f(x)`. -/
theorem claim_C4_cex : ¬(strip_types c4src = some ("f(x)".toList)) := by decide

/-- C5 (corrected).  The colon skip of the token stripper tracks only
AngleOpen/AngleClose nesting — AngleOpen raises the depth and AngleClose
lowers it, never below zero; `(` and `[` are NOT tracked — and stops,
without consuming, at the first token whose updated depth is zero and which
is a `,`, `;`, `{`, `}`, `)` or newline Code token or an Equals token;
with no such token it runs to the end of the token array.  Stated as:
the fuel-indexed skip of the source equals the structural walk
`specColonSkip` over the token suffix. -/
theorem claim_C5 (ts : List Token) (s : List Char) :
    ∀ fuel i d, i ≤ ts.length → ts.length + 1 - i ≤ fuel →
      skipColonF ts s fuel i d = some (specColonSkip s (ts.drop i) i d) := by
  intro fuel
  induction fuel with
  | zero => intro i d hi hf; omega
  | succ f ih =>
    intro i d hi hf
    rw [skipColonF]
    by_cases hlt : i < ts.length
    case neg =>
      rw [if_neg hlt]
      rw [List.drop_eq_nil_of_le (by omega), specColonSkip_nil]
    case pos =>
    rw [if_pos hlt, tsDrop_cons hlt, specColonSkip_cons]
    by_cases h1 : (decide (colonDepthStep (ts.getD i dfltTok) d = 0) &&
        colonStop s (ts.getD i dfltTok)) = true
    · rcases Bool.and_eq_true .. ▸ h1 with ⟨ha, hb⟩
      rw [if_pos h1, if_pos (by rw [Bool.and_eq_true]; exact ⟨ha, by rw [hb]; rfl⟩)]
    · rw [if_neg h1]
      by_cases h2 : (decide (colonDepthStep (ts.getD i dfltTok) d = 0) &&
          decide ((ts.getD i dfltTok).kind = TokenType.tkEq)) = true
      · rcases Bool.and_eq_true .. ▸ h2 with ⟨ha, hb⟩
        rw [if_pos h2, if_pos (by rw [Bool.and_eq_true]; exact ⟨ha, by rw [hb, Bool.or_true]⟩)]
      · rw [if_neg h2]
        rw [if_neg (by
          intro hx
          rcases Bool.and_eq_true .. ▸ hx with ⟨ha, hb⟩
          rcases Bool.or_eq_true .. ▸ hb with hc | hc
          · exact h1 (by rw [Bool.and_eq_true]; exact ⟨ha, hc⟩)
          · exact h2 (by rw [Bool.and_eq_true]; exact ⟨ha, hc⟩))]
        exact ih (i + 1) (colonDepthStep (ts.getD i dfltTok) d) (by omega) (by omega)

/-- C5, witness: the specification walked on the concrete token array of
`x: (a,b) = y` from the token after the Colon. -/
theorem claim_C5_witness :
    2 ≤ c5toks.length ∧ c5toks.length + 1 - 2 ≤ 20 ∧
    skipColonF c5toks c5src 20 2 0 = some (specColonSkip c5src (c5toks.drop 2) 2 0) :=
  ⟨by decide, by decide, claim_C5 c5toks c5src 20 2 0 (by decide) (by decide)⟩

/-- C5, the claim as stated is false: the skip stops at the `,` of
`x: (a,b) = y` (token 5) although the `(` at token 3 is still open — `(` is
not counted into the nesting depth — so the stripper emits `x,b) = y` and
not the `x= y` that the claimed rule (stop only at the zero-depth Equals)
would produce. -/
theorem claim_C5_cex :
    skipColonF c5toks c5src 20 2 0 = some 4 ∧
    firstChar c5src (c5toks.getD 3 dfltTok) = '(' ∧
    firstChar c5src (c5toks.getD 5 dfltTok) = ',' ∧
    strip_types c5src = some ("x,b) = y".toList) ∧
    ¬("x,b) = y".toList = "x= y".toList) := by
  refine ⟨by decide, by decide, by decide, by decide, by decide⟩

/-- C6 (corrected).  After the matched AngleClose of a generic candidate,
whitespace skipping stops at the first token that is not a whitespace Code
token; the AngleOpen is classified as a comparison — `<` emitted verbatim —
exactly when that follower is a Code token other than `(` and `{`.  Every
non-Code follower (String, Colon, Optional, comment tokens, EndOfInput) and
every Equals follower leaves the candidate flag set, so the generic reading
is KEPT, contradicting the claim that those followers force the comparison
reading. -/
theorem claim_C6 (ts : List Token) (s : List Char) (fuel i m la : Nat)
    (hc : ltCandidate ts s i = true)
    (hm : findMatchGtF ts fuel (i + 1) 1 = some (some m))
    (hw : skipWsF ts s fuel (m + 1) = some la) :
    ltLooksGenericF ts s fuel i = some (followGeneric ts s la) ∧
    (followGeneric ts s la = false ↔
      la < ts.length ∧ (ts.getD la dfltTok).kind = TokenType.tkCode ∧
      ¬(firstChar s (ts.getD la dfltTok) = '(') ∧
      ¬(firstChar s (ts.getD la dfltTok) = '{')) := by
  constructor
  · simp only [ltLooksGenericF, hc, if_true, hm, hw]
  · unfold followGeneric
    by_cases h1 : la < ts.length
    · rw [if_pos h1]
      by_cases h2 : (ts.getD la dfltTok).kind = TokenType.tkCode
      · rw [if_pos h2]
        constructor
        · intro hff
          rcases Bool.or_eq_false_iff.mp hff with ⟨hx, hy⟩
          exact ⟨h1, h2, of_decide_eq_false hx, of_decide_eq_false hy⟩
        · rintro ⟨-, -, hx, hy⟩
          rw [decide_eq_false hx, decide_eq_false hy]
          rfl
      · rw [if_neg h2]
        by_cases h3 : (ts.getD la dfltTok).kind = TokenType.tkEq
        · rw [if_pos h3]
          exact iff_of_false (by simp) (fun hx => h2 hx.2.1)
        · rw [if_neg h3]
          exact iff_of_false (by simp) (fun hx => h2 hx.2.1)
    · rw [if_neg h1]
      exact iff_of_false (by simp) (fun hx => h1 hx.1)

/-- C6, witness: the concrete token array of ` a<b>?:c` — candidate at
token 2, match at token 4, follower at token 5 (the Optional token). -/
theorem claim_C6_witness :
    ltCandidate c6toks c6src 2 = true ∧
    findMatchGtF c6toks 20 (2 + 1) 1 = some (some 4) ∧
    skipWsF c6toks c6src 20 (4 + 1) = some 5 ∧
    ltLooksGenericF c6toks c6src 20 2 = some (followGeneric c6toks c6src 5) :=
  ⟨by decide, by decide, by decide,
    (claim_C6 c6toks c6src 20 2 4 5 (by decide) (by decide) (by decide)).1⟩

/-- C6, the claim as stated is false: in ` a<b>?:c` the matched AngleClose
is followed by an Optional token, which the claim says forces the
comparison reading with `<` emitted verbatim; the code instead keeps the
generic reading and elides `<b>`, producing ` a:c`. -/
theorem claim_C6_cex :
    ltLooksGenericF c6toks c6src 20 2 = some true ∧
    (c6toks.getD 5 dfltTok).kind = TokenType.tkOptional ∧
    strip_types c6src = some (" a:c".toList) ∧
    ¬(" a:c".toList = c6src) := by
  refine ⟨by decide, by decide, by decide, by decide⟩

/-- C7 (corrected).  On `class A implements B { private x: number = 1; }`
the stripper returns `class A   {  x= 1; }`: THREE spaces after `A` (the
pre-existing space token is emitted and the Implements case appends two
more), TWO spaces before `x` (the token stripper elides only the `private`
keyword token, not the whitespace following it, so both surrounding space
tokens survive), and no space before `=` (the colon skip consumes it). -/
theorem claim_C7 : strip_types c7src = some ("class A   {  x= 1; }".toList) := by decide

/-- C7, the claim as stated is false: the output is not
`class A  { x = 1; }`. -/
theorem claim_C7_cex : ¬(strip_types c7src = some ("class A  { x = 1; }".toList)) := by
  decide

/-- C8 (corrected).  `strip_types` is not idempotent in general, but it is
idempotent — indeed the identity — on every nonempty buffer of lexically
plain bytes (no quotes, backticks, slashes, colons, `<`, and none of the
letters `t`, `a`, `i`, `p`). -/
theorem claim_C8 (s : List Char) (h0 : ¬(s = [])) (hp : ∀ c ∈ s, plainChar c = true) :
    (strip_types s).bind strip_types = strip_types s := by
  rw [strip_types_plain s h0 hp, Option.some_bind, strip_types_plain s h0 hp]

/-- C8, witness: the plain buffer `{x = 5}`. -/
theorem claim_C8_witness :
    ¬(c8plain = []) ∧ (∀ c ∈ c8plain, plainChar c = true) ∧
    (strip_types c8plain).bind strip_types = strip_types c8plain :=
  ⟨by decide, by decide, claim_C8 c8plain (by decide) (by decide)⟩

/-- C8, the claim as stated is false: `strip_types "a?: b" = "a: b"` (the
Optional token is replaced by a bare `:`), and re-stripping `a: b` yields
`a` — the colon that the first pass emitted re-lexes as a type annotation,
so the second application strips further. -/
theorem claim_C8_cex :
    strip_types c8src = some ("a: b".toList) ∧
    (strip_types c8src).bind strip_types = some ("a".toList) ∧
    ¬((strip_types c8src).bind strip_types = strip_types c8src) := by
  refine ⟨by decide, by decide, by decide⟩

/-- C9 (confirmed).  `parse` is total: for EVERY token array — also one
lexed from malformed input with unmatched brackets — the fuel
`ts.length + 1` supplied by `parse` is sufficient because every skip loop
advances the cursor on each iteration and stops at the end of the token
array when its terminating token never occurs; consequently `strip_types`
returns a value on every non-empty buffer rather than signalling an
error. -/
theorem claim_C9 :
    (∀ (ts : List Token) (s : List Char), (parse ts s).isSome = true) ∧
    (∀ s : List Char, ¬(s = []) → (strip_types s).isSome = true) := by
  constructor
  · intro ts s
    exact parseAuxF_isSome ts s (ts.length + 1) 0 (by omega) (by omega)
  · intro s h0
    exact strip_types_isSome h0

/-- C9, witness: the malformed buffer `x: (a` — unterminated annotation and
unmatched parenthesis — is stripped without error. -/
theorem claim_C9_witness :
    ¬(c9src = []) ∧ (strip_types c9src).isSome = true :=
  ⟨by decide, claim_C9.2 c9src (by decide)⟩

/-- C10 (corrected).  The two strip_types implementations agree on
`age?: number` — both yield `age: number` — but they do not agree on every
input on which both succeed: the claim is refuted by `claim_C10_cex`
below. -/
theorem claim_C10 :
    strip_types c10src = strip_types2 c10src ∧
    strip_types c10src = some ("age: number".toList) := by
  refine ⟨by decide, by decide⟩

/-- C10, the claim as stated is false: on `//a\nb` the token pipeline
drops the newline that terminated the line comment (`//ab`) while the
character-level stripper copies it verbatim (`//a` newline `b`), so the two
implementations return different outputs although both succeed. -/
theorem claim_C10_cex :
    strip_types c2src = some ("//ab".toList) ∧
    strip_types2 c2src = some c2src ∧
    ¬(strip_types c2src = strip_types2 c2src) := by
  refine ⟨by decide, by decide, by decide⟩

end Analyzer
